import Mathlib

/-!
Shallow embedding of the hybrid P2P file-sharing programs
(`alice.py`, `bob.py`, `peer.py`, `tracker.py`).

Files are byte lists (`List Nat`); the chunk directories are association
lists from file name to file content.  Each Lean definition mirrors one
Python function of the source, with the I/O (sockets, filesystem) made
explicit as arguments and results.
-/

namespace P2P

/-- Byte-wise (code-point) strict order on character lists, matching
Python's lexicographic comparison of `str` values. -/
def charListLt : List Char → List Char → Bool
  | [], [] => false
  | [], _ :: _ => true
  | _ :: _, [] => false
  | a :: as, b :: bs =>
      if a.toNat < b.toNat then true
      else if b.toNat < a.toNat then false
      else charListLt as bs

/-- Test whether the second character list begins with the first. -/
def charListIsInit : List Char → List Char → Bool
  | [], _ => true
  | _ :: _, [] => false
  | p :: ps, c :: cs => p = c && charListIsInit ps cs

/-- Python `s.startswith(p)`. -/
def strStartsWith (s p : String) : Bool := charListIsInit p.data s.data

/-- Python `s.endswith(p)`. -/
def strEndsWith (s p : String) : Bool :=
  charListIsInit p.data.reverse s.data.reverse

/-- Insert a name into an already sorted list of names, keeping the
ascending code-point order that Python's `sorted` produces. -/
def insertName (x : String) : List String → List String
  | [] => [x]
  | y :: ys => if charListLt x.data y.data then x :: y :: ys
               else y :: insertName x ys

/-- Python `sorted(names)`: ascending lexicographic (code-point) order. -/
def sortNames : List String → List String
  | [] => []
  | x :: xs => insertName x (sortNames xs)

/-- Look a file name up in a directory (association list from name to
byte content). -/
def lookupFile (dir : List (String × List Nat)) (name : String) :
    Option (List Nat) :=
  (dir.find? (fun p => p.1 = name)).map Prod.snd

/-- The metadata record written by `alice.py` as `file_metadata.json`:
fields `original_filename`, `extension`, `size`, `chunk_count`. -/
structure FileMetadata where
  original_filename : String
  extension : String
  size : Nat
  chunk_count : Nat
  deriving DecidableEq, Repr

/-- Chunk file name `f"chunk_{i}.part"` used by `alice.py`. -/
def chunkName (i : Nat) : String := "chunk_" ++ toString i ++ ".part"

/-- The read loop of `alice.py` `split_file`: repeatedly `f.read(chunk_size)`
on the remaining bytes, stopping at an empty read (end of file, or a zero
`chunk_size`).  `fuel` bounds the recursion by the number of bytes left;
`split_file` below instantiates it with the file length, which always
suffices because every non-final iteration consumes at least one byte. -/
def splitChunksGo (sz : Nat) : Nat → List Nat → List (List Nat)
  | 0, _ => []
  | _ + 1, [] => []
  | fuel + 1, x :: xs =>
      if sz = 0 then []
      else (x :: xs).take sz :: splitChunksGo sz fuel ((x :: xs).drop sz)

/-- The sequence of chunk payloads produced by the `split_file` read loop. -/
def splitChunks (sz : Nat) (d : List Nat) : List (List Nat) :=
  splitChunksGo sz d.length d

/-- `alice.py` `split_file`, with the filesystem made explicit: given the
source file's base name, extension and bytes plus the chunk size, it
returns the chunk files written into the `chunks` directory (name and
payload, names `chunk_0.part`, `chunk_1.part`, ...) and the metadata
record, whose `chunk_count` is the final loop counter `i`. -/
def split_file (fn ext : String) (data : List Nat) (sz : Nat) :
    List (String × List Nat) × FileMetadata :=
  let cs := splitChunks sz data
  (cs.enum.map (fun p => (chunkName p.1, p.2)),
   { original_filename := fn, extension := ext, size := data.length,
     chunk_count := cs.length })

/-- The list of names `alice.py` `split_file` returns to its caller: the
chunk names, with `"file_metadata.json"` appended after the loop, even
when the loop produced no chunks. -/
def split_file_names (data : List Nat) (sz : Nat) : List String :=
  ((splitChunks sz data).enum.map (fun p => chunkName p.1))
    ++ ["file_metadata.json"]

/-- The guard in `alice.py` `__main__`: after `chunks = split_file(...)`,
`if not chunks: exit(1)`; the run proceeds to contact the tracker and
distribute exactly when the returned list is nonempty. -/
def alice_main_proceeds (data : List Nat) (sz : Nat) : Bool :=
  !(split_file_names data sz).isEmpty

/-- `bob.py` `reconstruct_file`, with the filesystem made explicit: the
download directory is an association list of file name and bytes, and the
metadata (`get_file_metadata`) is `some` when `file_metadata.json` exists
and parses.  The function filters the directory listing to names starting
with `"chunk_"` and ending with `".part"`, sorts them with Python's
`sorted` (plain lexicographic string order), concatenates the contents in
that order into the output file, and returns `none` (Python `False`) when
no chunk files exist or the result is empty, else `some` of the output
file name and bytes. -/
def reconstruct_file (dir : List (String × List Nat))
    (md : Option FileMetadata) : Option (String × List Nat) :=
  let output_name :=
    match md with
    | none => "reconstructed_file"
    | some m => m.original_filename
  let chunk_files :=
    sortNames ((dir.map Prod.fst).filter
      (fun n => strStartsWith n "chunk_" && strEndsWith n ".part"))
  if chunk_files = [] then none
  else
    let bytes := (chunk_files.map (fun n => (lookupFile dir n).getD [])).flatten
    if bytes = [] then none else some (output_name, bytes)

/-- Composition of the two sides: split a file on Alice's side, hand the
produced chunk files (complete, as a directory) and the metadata record
to Bob's reconstruction, and return the reconstructed bytes. -/
def roundTrip (fn ext : String) (data : List Nat) (sz : Nat) :
    Option (List Nat) :=
  let s := split_file fn ext data sz
  (reconstruct_file s.1 (some s.2)).map Prod.snd

/-- Overwrite-or-create a file in a directory, as `open(path, "wb")`
followed by writes does. -/
def setFile (dir : List (String × List Nat)) (name : String)
    (content : List Nat) : List (String × List Nat) :=
  (dir.filter (fun p => p.1 ≠ name)) ++ [(name, content)]

/-- `peer.py` `handle_incoming_chunk`, with the socket stream made
explicit: `packets` are the byte blocks `recv` returned before the stream
ended (normally, or early through truncation or a connection reset — the
handler breaks out of its loop in either case and keeps what it wrote).
The file is opened directly at its final path under `received_chunks` and
holds the concatenation of the received blocks; nothing is staged and
nothing is deleted afterwards, even when no bytes arrived. -/
def handle_incoming_chunk (store : List (String × List Nat))
    (name : String) (packets : List (List Nat)) : List (String × List Nat) :=
  setFile store name packets.flatten

/-- `peer.py` `handle_request_chunks`: the listing served to a downloader
is every file currently present in `received_chunks`. -/
def serveListing (store : List (String × List Nat)) : List String :=
  store.map Prod.fst

/-- Reply of the specific-chunk handler: the chunk bytes, or the literal
`NOT_FOUND` sentinel. -/
inductive ChunkReply where
  | notFound : ChunkReply
  | chunkData : List Nat → ChunkReply
  deriving DecidableEq, Repr

/-- `peer.py` `handle_request_specific_chunk`, with the store explicit:
after acknowledging, the handler looks the requested name up under
`received_chunks`; if the file is absent (or empty) it sends `NOT_FOUND`,
otherwise the file's bytes.  It returns the store as well to record that
the handler never modifies it. -/
def handle_request_specific_chunk (store : List (String × List Nat))
    (name : String) : ChunkReply × List (String × List Nat) :=
  match lookupFile store name with
  | none => (ChunkReply.notFound, store)
  | some d => if d = [] then (ChunkReply.notFound, store)
              else (ChunkReply.chunkData d, store)

/-- `tracker.py` registration step: `if peer_info not in peers:
peers.append(peer_info)`. -/
def register (peers : List String) (peer_info : String) : List String :=
  if peer_info ∈ peers then peers else peers ++ [peer_info]

/-- Python `str.strip()`: drop leading and trailing whitespace. -/
def pyStrip (s : String) : String :=
  String.mk (((s.data.dropWhile Char.isWhitespace).reverse.dropWhile
    Char.isWhitespace).reverse)

/-- Python `request.strip().split(' ', 1)` restricted to its two possible
shapes: `some (head, rest)` splits at the first space, `none` means the
stripped request contains no space at all (so unpacking into two names
raises `ValueError`). -/
def splitOnceAtSpace : List Char → Option (List Char × List Char)
  | [] => none
  | c :: cs =>
      if c = ' ' then some ([], cs)
      else (splitOnceAtSpace cs).map (fun p => (c :: p.1, p.2))

/-- One iteration of the `tracker.py` accept loop, with the socket
explicit: given the current `peers` list and the decoded request, return
the new `peers` list, or `Except.error` when the iteration raises an
unhandled exception (the unguarded two-name unpacking of
`request.strip().split(' ', 1)`), which escapes the `while True` loop and
terminates the tracker process. -/
def trackerHandleRequest (peers : List String) (request : String) :
    Except String (List String) :=
  if request = "GET_PEERS" then Except.ok peers
  else if strStartsWith request "REGISTER_PEER" then
    match splitOnceAtSpace (pyStrip request).data with
    | some p => Except.ok (register peers (String.mk p.2))
    | none => Except.error "ValueError: not enough values to unpack"
  else Except.ok peers

/-- Socket configuration an orchestrator uses for one exchange; `timeout`
is `some` of the bound when `settimeout` is called on the socket, `none`
when the socket is left in its default blocking mode. -/
structure SocketConfig where
  timeout : Option Nat
  deriving DecidableEq, Repr

/-- Socket setup of `alice.py` `send_chunks_to_peer`: a plain
`socket.socket(AF_INET, SOCK_STREAM)` with no `settimeout` call before
its `connect`, `sendall` and `recv` operations. -/
def sendChunksSocketConfig : SocketConfig := { timeout := none }

/-- Socket setup of `bob.py` `download_chunk`: a plain
`socket.socket(AF_INET, SOCK_STREAM)` with no `settimeout` call before
its `connect`, `sendall` and `recv` operations. -/
def downloadChunkSocketConfig : SocketConfig := { timeout := none }

theorem splitChunksGo_nil (sz fuel : Nat) : splitChunksGo sz fuel [] = [] := by
  cases fuel <;> rfl

theorem splitChunksGo_length (sz : Nat) (hsz : 0 < sz) (fuel : Nat) :
    ∀ d : List Nat, d.length ≤ fuel →
      (splitChunksGo sz fuel d).length = (d.length + sz - 1) / sz := by
  induction fuel with
  | zero =>
      intro d h
      have hd : d = [] := List.eq_nil_of_length_eq_zero (Nat.le_zero.mp h)
      subst hd
      simp [splitChunksGo, Nat.div_eq_of_lt (show sz - 1 < sz by omega)]
  | succ n ih =>
      intro d h
      match d with
      | [] =>
          rw [splitChunksGo_nil]
          simp only [List.length_nil]
          exact (Nat.div_eq_of_lt (by omega)).symm
      | x :: xs =>
          rw [splitChunksGo, if_neg (Nat.pos_iff_ne_zero.mp hsz)]
          have hdrop : ((x :: xs).drop sz).length ≤ n := by
            simp only [List.length_drop, List.length_cons] at *
            omega
          rw [List.length_cons, ih _ hdrop, List.length_drop]
          have hL : 0 < (x :: xs).length := by simp
          generalize (x :: xs).length = L at *
          rcases Nat.le_total L sz with hle | hge
          · have h0 : L - sz = 0 := Nat.sub_eq_zero_of_le hle
            rw [h0, Nat.div_eq_of_lt (show 0 + sz - 1 < sz by omega)]
            have h1 : (L + sz - 1) / sz = 1 := by
              have heq : L + sz - 1 = (L - 1) + 1 * sz := by omega
              rw [heq, Nat.add_mul_div_right _ _ hsz,
                Nat.div_eq_of_lt (show L - 1 < sz by omega)]
            omega
          · have heq : L - sz + sz - 1 = L - 1 := by omega
            have heq2 : L + sz - 1 = (L - 1) + sz := by omega
            rw [heq, heq2, Nat.add_div_right _ hsz]

theorem splitChunksGo_sizes (sz : Nat) (hsz : 0 < sz) (fuel : Nat) :
    ∀ d : List Nat, d.length ≤ fuel →
      (∀ c ∈ (splitChunksGo sz fuel d).dropLast, c.length = sz) ∧
      (∀ c ∈ splitChunksGo sz fuel d, c.length ≤ sz) := by
  induction fuel with
  | zero =>
      intro d h
      have hd : d = [] := List.eq_nil_of_length_eq_zero (Nat.le_zero.mp h)
      subst hd
      simp [splitChunksGo]
  | succ n ih =>
      intro d h
      match d with
      | [] => simp [splitChunksGo]
      | x :: xs =>
          rw [splitChunksGo, if_neg (Nat.pos_iff_ne_zero.mp hsz)]
          have hdrop : ((x :: xs).drop sz).length ≤ n := by
            simp only [List.length_drop, List.length_cons] at *
            omega
          have hrest := ih _ hdrop
          constructor
          · intro c hc
            cases hr : splitChunksGo sz n ((x :: xs).drop sz) with
            | nil => rw [hr] at hc; simp at hc
            | cons y ys =>
                rw [hr, List.dropLast_cons₂] at hc
                rcases List.mem_cons.mp hc with rfl | hmem
                · have hne : (x :: xs).drop sz ≠ [] := by
                    intro hnil
                    rw [hnil, splitChunksGo_nil] at hr
                    exact List.cons_ne_nil y ys hr.symm
                  have hlt : sz < (x :: xs).length := by
                    by_contra hge
                    exact hne (List.drop_eq_nil_of_le (by omega))
                  simp only [List.length_take, List.length_cons]
                  simp only [List.length_cons] at hlt
                  omega
                · exact hrest.1 c (by rw [hr]; exact hmem)
          · intro c hc
            rcases List.mem_cons.mp hc with rfl | hmem
            · exact List.length_take_le sz (x :: xs)
            · exact hrest.2 c hmem

theorem splitChunks_length (sz : Nat) (hsz : 0 < sz) (d : List Nat) :
    (splitChunks sz d).length = (d.length + sz - 1) / sz :=
  splitChunksGo_length sz hsz d.length d (Nat.le_refl _)

theorem split_file_fst_snd (fn ext : String) (data : List Nat) (sz : Nat) :
    (split_file fn ext data sz).1.map Prod.snd = splitChunks sz data := by
  simp only [split_file, List.map_map]
  have hcomp : (Prod.snd ∘ fun p : Nat × List Nat => (chunkName p.1, p.2))
      = Prod.snd := by
    funext p
    rfl
  rw [hcomp, List.enum_map_snd]

/-- C1: the claimed byte-exact round trip fails on the code.  An 11-byte
file split with chunk size 1 produces chunks `chunk_0.part` ...
`chunk_10.part`; reconstruction from the complete chunk set and the
metadata sorts the names lexicographically, so `chunk_10.part` is placed
before `chunk_2.part` and the output bytes differ from the source. -/
theorem C1_roundTrip_fails_on_eleven_chunk_file :
    roundTrip "data.bin" ".bin" (List.range 11) 1
        = some [0, 1, 10, 2, 3, 4, 5, 6, 7, 8, 9]
    ∧ roundTrip "data.bin" ".bin" (List.range 11) 1 ≠ some (List.range 11) :=
  ⟨by decide, by decide⟩

/-- C2: reconstruction does not order chunks by numeric index.  For the
complete set of chunks with indices 0 through 11 (payload of chunk `i` is
the single byte `i`), the code concatenates the payloads in lexicographic
name order 0,1,10,11,2,...,9, not in numeric order 0,1,2,...,11. -/
theorem C2_reconstruct_order_is_lexicographic :
    reconstruct_file ((List.range 12).map (fun i => (chunkName i, [i]))) none
        = some ("reconstructed_file", [0, 1, 10, 11, 2, 3, 4, 5, 6, 7, 8, 9])
    ∧ ([0, 1, 10, 11, 2, 3, 4, 5, 6, 7, 8, 9] : List Nat) ≠ List.range 12 :=
  ⟨by decide, by decide⟩

/-- C3: splitting a file of `N` bytes with chunk size `S > 0` produces
exactly `⌈N/S⌉ = (N + S - 1) / S` chunk entries when `N > 0` and exactly 0
when `N = 0`; every chunk except possibly the final one has exactly `S`
bytes and none exceeds `S`; and the `chunk_count` written into the
metadata equals the number of chunk entries produced. -/
theorem C3_split_chunk_count (fn ext : String) (data : List Nat) (sz : Nat)
    (hsz : 0 < sz) :
    (split_file fn ext data sz).2.chunk_count
        = (split_file fn ext data sz).1.length
    ∧ (data ≠ [] →
        (split_file fn ext data sz).1.length = (data.length + sz - 1) / sz)
    ∧ (data = [] → (split_file fn ext data sz).1.length = 0)
    ∧ (∀ c ∈ ((split_file fn ext data sz).1.map Prod.snd).dropLast,
        c.length = sz)
    ∧ (∀ c ∈ (split_file fn ext data sz).1.map Prod.snd, c.length ≤ sz) := by
  have hlen : (split_file fn ext data sz).1.length
      = (splitChunks sz data).length := by
    simp [split_file, List.enum_length]
  have hsizes := splitChunksGo_sizes sz hsz data.length data (Nat.le_refl _)
  refine ⟨?_, ?_, ?_, ?_, ?_⟩
  · rw [hlen]
    rfl
  · intro _
    rw [hlen]
    exact splitChunks_length sz hsz data
  · intro hd
    subst hd
    rw [hlen]
    rfl
  · rw [split_file_fst_snd]
    exact hsizes.1
  · rw [split_file_fst_snd]
    exact hsizes.2

/-- Witness for C3 at a concrete input: a 3-byte file split with chunk
size 2 yields `⌈3/2⌉ = 2` chunks of sizes 2 and 1, and the metadata's
`chunk_count` is 2. -/
theorem C3_split_chunk_count_witness :
    (0 < 2)
    ∧ ((split_file "f.txt" ".txt" [7, 8, 9] 2).2.chunk_count
          = (split_file "f.txt" ".txt" [7, 8, 9] 2).1.length
        ∧ (([7, 8, 9] : List Nat) ≠ [] →
            (split_file "f.txt" ".txt" [7, 8, 9] 2).1.length
              = (([7, 8, 9] : List Nat).length + 2 - 1) / 2)
        ∧ (([7, 8, 9] : List Nat) = [] →
            (split_file "f.txt" ".txt" [7, 8, 9] 2).1.length = 0)
        ∧ (∀ c ∈ ((split_file "f.txt" ".txt" [7, 8, 9] 2).1.map
              Prod.snd).dropLast, c.length = 2)
        ∧ (∀ c ∈ (split_file "f.txt" ".txt" [7, 8, 9] 2).1.map Prod.snd,
            c.length ≤ 2)) :=
  ⟨by decide, C3_split_chunk_count "f.txt" ".txt" [7, 8, 9] 2 (by decide)⟩

/-- C4: registration is idempotent and duplicate-free.  Registering an
address already present returns the list unchanged (same length, same
order); registering any address preserves `Nodup`; and the result is
always either the old list or the old list with the new address appended,
so first-registration order is preserved. -/
theorem C4_register_idempotent (peers : List String) (a b : String)
    (ha : a ∈ peers) (hnd : peers.Nodup) :
    register peers a = peers
    ∧ (register peers b).Nodup
    ∧ (register peers b = peers ∨ register peers b = peers ++ [b]) := by
  refine ⟨by simp [register, ha], ?_, ?_⟩
  · by_cases hb : b ∈ peers
    · simpa [register, hb] using hnd
    · simp only [register, hb, if_false]
      rw [List.nodup_append]
      exact ⟨hnd, List.nodup_singleton b,
        fun x hx hx1 => hb ((List.mem_singleton.mp hx1) ▸ hx)⟩
  · by_cases hb : b ∈ peers <;> simp [register, hb]

/-- Witness for C4 at a concrete registry state: re-registering
`"127.0.0.1:5001"`, already first in the list, changes nothing, and the
state stays duplicate-free and order-stable under a fresh registration. -/
theorem C4_register_idempotent_witness :
    ("127.0.0.1:5001" ∈ ["127.0.0.1:5001", "127.0.0.1:5002"])
    ∧ (["127.0.0.1:5001", "127.0.0.1:5002"] : List String).Nodup
    ∧ (register ["127.0.0.1:5001", "127.0.0.1:5002"] "127.0.0.1:5001"
          = ["127.0.0.1:5001", "127.0.0.1:5002"]
        ∧ (register ["127.0.0.1:5001", "127.0.0.1:5002"]
            "127.0.0.1:5003").Nodup
        ∧ (register ["127.0.0.1:5001", "127.0.0.1:5002"] "127.0.0.1:5003"
              = ["127.0.0.1:5001", "127.0.0.1:5002"]
            ∨ register ["127.0.0.1:5001", "127.0.0.1:5002"] "127.0.0.1:5003"
              = ["127.0.0.1:5001", "127.0.0.1:5002"] ++ ["127.0.0.1:5003"])) :=
  ⟨by decide, by decide,
    C4_register_idempotent ["127.0.0.1:5001", "127.0.0.1:5002"]
      "127.0.0.1:5001" "127.0.0.1:5003" (by decide) (by decide)⟩

/-- C5: a zero-byte source does yield zero chunks and `chunk_count = 0`,
but the sender does not treat it as an error: `split_file` still returns
the list `["file_metadata.json"]`, so the `if not chunks` guard in the
main program passes and the run proceeds to contact the tracker and
distribute the metadata pseudo-chunk. -/
theorem C5_empty_source_sender_proceeds (sz : Nat) :
    (split_file "empty.txt" ".txt" [] sz).1 = []
    ∧ (split_file "empty.txt" ".txt" [] sz).2.chunk_count = 0
    ∧ split_file_names [] sz = ["file_metadata.json"]
    ∧ alice_main_proceeds [] sz = true :=
  ⟨rfl, rfl, rfl, rfl⟩

/-- C6: reconstruction does not detect an incomplete chunk set.  With
only `chunk_0.part` and `chunk_2.part` present while the metadata says
`chunk_count = 3` (index 1 has no blob), the code silently produces an
output file from the partial set instead of failing. -/
theorem C6_incomplete_set_not_detected :
    lookupFile [("chunk_0.part", [1]), ("chunk_2.part", [3])] (chunkName 1)
        = none
    ∧ reconstruct_file [("chunk_0.part", [1]), ("chunk_2.part", [3])]
        (some { original_filename := "f.bin", extension := ".bin",
                size := 3, chunk_count := 3 })
        = some ("f.bin", [1, 3]) :=
  ⟨by decide, by decide⟩

/-- C7: accepting a pushed chunk is not atomic.  The handler writes the
incoming stream directly to the final path: after a truncated stream that
delivered only the packet `[5, 6]` of an intended `[5, 6, 7, 8]`, the
partial blob is kept and is visible in the listing under the chunk's
name; and a stream that delivered no bytes leaves a zero-length blob
exposed under the name. -/
theorem C7_truncated_push_exposes_partial_chunk :
    handle_incoming_chunk [] "chunk_0.part" [[5, 6]]
        = [("chunk_0.part", [5, 6])]
    ∧ "chunk_0.part" ∈ serveListing (handle_incoming_chunk []
        "chunk_0.part" [[5, 6]])
    ∧ lookupFile (handle_incoming_chunk [] "chunk_0.part" [[5, 6]])
        "chunk_0.part" = some [5, 6]
    ∧ ([5, 6] : List Nat) ≠ [5, 6, 7, 8]
    ∧ handle_incoming_chunk [] "chunk_0.part" [] = [("chunk_0.part", [])]
    ∧ "chunk_0.part" ∈ serveListing (handle_incoming_chunk []
        "chunk_0.part" []) :=
  ⟨by decide, by decide, by decide, by decide, by decide, by decide⟩

/-- C8: a pull miss is isolated.  Whenever the requested chunk name is
not present in the peer's store, the handler replies with the `NOT_FOUND`
sentinel and returns the store unchanged, so subsequent independent
connections see the same state. -/
theorem C8_pull_miss_isolated (store : List (String × List Nat))
    (name : String) (h : lookupFile store name = none) :
    handle_request_specific_chunk store name = (ChunkReply.notFound, store) := by
  simp [handle_request_specific_chunk, h]

/-- Witness for C8 at a concrete store: requesting `chunk_9.part` from a
peer holding only `chunk_0.part` yields `NOT_FOUND` and leaves the store
as it was. -/
theorem C8_pull_miss_isolated_witness :
    lookupFile [("chunk_0.part", [7])] "chunk_9.part" = none
    ∧ handle_request_specific_chunk [("chunk_0.part", [7])] "chunk_9.part"
        = (ChunkReply.notFound, [("chunk_0.part", [7])]) :=
  ⟨by decide, C8_pull_miss_isolated [("chunk_0.part", [7])] "chunk_9.part"
    (by decide)⟩

/-- C9: no socket used by the sender's push loop or the receiver's
download loop carries a timeout: both are created in default blocking
mode and `settimeout` is never called, so a single unresponsive peer can
block the orchestrator indefinitely, contrary to the claim. -/
theorem C9_orchestrator_sockets_have_no_timeout :
    sendChunksSocketConfig.timeout = none
    ∧ downloadChunkSocketConfig.timeout = none :=
  ⟨rfl, rfl⟩

/-- C10: a `REGISTER_PEER` request with no space after stripping makes
the tracker's unguarded two-name unpacking of
`request.strip().split(' ', 1)` raise a `ValueError` inside the accept
loop, which has no exception handler, terminating the tracker process. -/
theorem C10_tracker_crashes_on_bare_register :
    trackerHandleRequest [] "REGISTER_PEER"
      = Except.error "ValueError: not enough values to unpack" := by
  rfl

end P2P
